import Mathlib

/-!
Verification of the step-code problem dashboard (src/app/routes/_index.tsx,
src/app/lib/types.ts): the facet extractor, the query engine
(filter / sort / paginate pipeline in the filteredAndSortedProblems memo),
and the filter-state transitions (applyFilters, clearAllFilters,
removeAppliedFilter, toggleTag, pagination callbacks).

Embedding conventions, used consistently below:

* JavaScript strings are modeled as lists of UTF-16 code units
  (`JStr := List Nat`); `js` converts a Lean string literal. String
  operations used by the source (`toLowerCase`, `includes`, relational
  comparison of strings by the default `Array.sort`, `Number.toString`,
  `parseInt`) are modeled on these lists. `toLowerCase` is modeled on the
  ASCII range, and `parseInt` without the radix auto-detection branches,
  which is the behavior on all inputs the claims touch.
* JavaScript numbers that can be `NaN` (the results of `parseInt`) are
  modeled as `JSNum := Option Int`, `none` standing for `NaN`; every
  comparison against a `none` bound is `false`, exactly as every IEEE
  comparison with `NaN` is false. Problem ratings and ids come from the
  validated dataset and are modeled as `Int`.
* JavaScript `Set` values are modeled as lists used only through
  membership; `new Set(x)` copies, `add` appends when absent, `delete`
  removes, `has`/`includes` is membership, `size > 0` is nonemptiness.
* `Array.prototype.sort` sorts in place and is guaranteed stable; it is
  modeled by a stable insertion sort `jsSort`.  Because the source starts
  the pipeline with `let filtered = problems` and only reassigns
  `filtered` to a fresh array when a filter stage actually runs, the call
  `filtered.sort(...)` mutates the caller-owned `problems` array exactly
  when no stage ran.  `filteredAndSorted` therefore returns both the
  result list (`items`, the `[...filtered]` copy) and the final contents
  of the `problems` array (`problemsAfter`).
-/

/-- JavaScript string, as its list of UTF-16 code units. -/
def JStr : Type := List Nat

instance : DecidableEq JStr := inferInstanceAs (DecidableEq (List Nat))

instance : BEq JStr := inferInstanceAs (BEq (List Nat))

instance : LawfulBEq JStr := inferInstanceAs (LawfulBEq (List Nat))

instance : Membership Nat JStr := inferInstanceAs (Membership Nat (List Nat))

/-- Code units of a Lean string literal, used to write concrete JS strings. -/
def js (s : String) : JStr := s.toList.map Char.toNat

/-- Test whether `needle` is an initial segment of `hay`. -/
def startsWithB : List Nat → List Nat → Bool
  | [], _ => true
  | _ :: _, [] => false
  | a :: as, b :: bs => a == b && startsWithB as bs

/-- Recursion core of `String.prototype.includes`: does `needle` occur
contiguously inside the list? -/
def strContains (needle : List Nat) : List Nat → Bool
  | [] => startsWithB needle []
  | c :: rest => startsWithB needle (c :: rest) || strContains needle rest

/-- Model of `hay.includes(needle)` on JS strings. -/
def jsIncludes (hay needle : JStr) : Bool := strContains needle hay

/-- Model of `String.prototype.toLowerCase` on one code unit (ASCII range). -/
def lowerChar (c : Nat) : Nat := if 65 ≤ c ∧ c ≤ 90 then c + 32 else c

/-- Model of `String.prototype.toLowerCase`. -/
def lowerStr (s : JStr) : JStr := s.map lowerChar

/-- Lexicographic comparison of JS strings by code unit, the order used by
the comparator-free `Array.prototype.sort` on arrays of strings. -/
def strLe : List Nat → List Nat → Bool
  | [], _ => true
  | _ :: _, [] => false
  | a :: as, b :: bs => if a < b then true else if b < a then false else strLe as bs

/-- Decimal digit code unit. -/
def isDigitCode (c : Nat) : Bool := 48 ≤ c && c ≤ 57

/-- Render the decimal digits of a natural number, most significant first.
The first argument is structural fuel; `natToStr` supplies enough. -/
def natToStrAux : Nat → Nat → List Nat
  | 0, _ => []
  | fuel + 1, n => if n < 10 then [48 + n] else natToStrAux fuel (n / 10) ++ [48 + n % 10]

/-- Decimal rendering of a natural number as a JS string. -/
def natToStr (n : Nat) : JStr := natToStrAux (n + 1) n

/-- Model of `Number.prototype.toString` for the integer ids of the dataset. -/
def intToStr (n : Int) : JStr :=
  if n < 0 then 45 :: natToStr n.natAbs else natToStr n.natAbs

/-- JavaScript number that may be `NaN` (`none`). -/
def JSNum : Type := Option Int

instance : DecidableEq JSNum := inferInstanceAs (DecidableEq (Option Int))

/-- Comparison `x > b` of a possibly-`NaN` number with an integer; every
comparison with `NaN` is false. -/
def jgt (x : JSNum) (b : Int) : Bool :=
  match x with
  | none => false
  | some v => b < v

/-- Comparison `x < b` of a possibly-`NaN` number with an integer. -/
def jlt (x : JSNum) (b : Int) : Bool :=
  match x with
  | none => false
  | some v => v < b

/-- Comparison `r >= x` of an integer with a possibly-`NaN` bound. -/
def jgeN (r : Int) (x : JSNum) : Bool :=
  match x with
  | none => false
  | some v => v ≤ r

/-- Comparison `r <= x` of an integer with a possibly-`NaN` bound. -/
def jleN (r : Int) (x : JSNum) : Bool :=
  match x with
  | none => false
  | some v => r ≤ v

/-- Accumulate the leading decimal digits of a string, stopping at the
first non-digit code unit. -/
def digitsAcc (acc : Nat) : List Nat → Nat
  | [] => acc
  | c :: rest => if isDigitCode c then digitsAcc (acc * 10 + (c - 48)) rest else acc

/-- Parse the leading digit run of a string; `none` when the first code
unit is not a digit (the `NaN` case of `parseInt`). -/
def leadDigits : List Nat → Option Nat
  | [] => none
  | c :: rest => if isDigitCode c then some (digitsAcc (c - 48) rest) else none

/-- Model of `parseInt(s)`: skip leading whitespace, an optional sign, then
read leading decimal digits; `NaN` (`none`) when no digit follows.  The
radix auto-detection branches of `parseInt` are not exercised by any input
the claims mention. -/
def jsParseInt (s : JStr) : JSNum :=
  let t := s.dropWhile (fun c => c == 32 || (9 ≤ c && c ≤ 13))
  match t with
  | 43 :: rest => (leadDigits rest).map (fun n => (n : Int))
  | 45 :: rest => (leadDigits rest).map (fun n => -(n : Int))
  | _ => (leadDigits t).map (fun n => (n : Int))

/-- Tag record of types.ts; an absent `subtags` field behaves in every use
site exactly like the empty list, so it is modeled as `[]`. -/
structure TopicTag where
  name : JStr
  subtags : List JStr
deriving DecidableEq

/-- Problem record of types.ts, restricted to the fields the dashboard
logic reads.  `difficulty` is `problemDetails?.difficulty` (`none` when
`problemDetails` is absent); an absent `topicTags` behaves like `[]`. -/
structure Problem where
  ID : Int
  Title : JStr
  Rating : Int
  difficulty : Option JStr
  topicTags : List TopicTag
deriving DecidableEq

/-- AppliedFilters state of _index.tsx.  The rating bounds are the outputs
of `parseInt` and can be `NaN`. -/
structure AppliedFilters where
  searchTerm : JStr
  difficulty : JStr
  tags : List JStr
  subtags : List JStr
  ratingMin : JSNum
  ratingMax : JSNum
  sortBy : JStr
deriving DecidableEq

/-- PendingFilters state of _index.tsx; the rating bounds are the raw text
field contents. -/
structure PendingFilters where
  searchTerm : JStr
  difficulty : JStr
  selectedTags : List JStr
  selectedSubtags : List JStr
  ratingMin : JStr
  ratingMax : JStr
  sortBy : JStr
deriving DecidableEq

/-- Model of `Set.prototype.delete` (by membership). -/
def setDelete (l : List JStr) (v : JStr) : List JStr := l.filter (fun x => x != v)

/-- Model of `Set.prototype.add` (by membership and insertion order). -/
def setAdd (l : List JStr) (v : JStr) : List JStr := if l.contains v then l else l ++ [v]

/-- Stable insertion of one element into a sorted list: the new element
goes after every existing element `y` with `le y x`, which is how a stable
sort orders elements that compare equal. -/
def insertLe {α : Type} (le : α → α → Bool) (x : α) : List α → List α
  | [] => [x]
  | y :: ys => if le y x then y :: insertLe le x ys else x :: y :: ys

/-- Model of the in-place stable `Array.prototype.sort` with comparator
`cmp`, presented through its induced boolean order `le a b = (cmp a b <= 0)`:
a stable insertion sort. -/
def jsSort {α : Type} (le : α → α → Bool) (l : List α) : List α :=
  l.foldl (fun acc x => insertLe le x acc) []

/-- Facet extractor `computedData.allTags`: the distinct tag names of the
dataset (collected through a JS `Set`), sorted by `Array.from(...).sort()`. -/
def allTags (problems : List Problem) : List JStr :=
  jsSort strLe ((problems.flatMap (fun p => p.topicTags.map (fun t => t.name))).dedup)

/-- Facet extractor `availableSubtags`: empty when no tag is selected,
otherwise the distinct subtags of every tag (in any problem) whose name is
selected, sorted.  The source collects into a JS `Set` and sorts the
resulting array; collection order differs from `List.dedup` but the two
agree on membership, and the subsequent sort of a duplicate-free list is
determined by membership alone. -/
def availableSubtags (problems : List Problem) (selectedTags : List JStr) : List JStr :=
  if selectedTags.length = 0 then []
  else
    jsSort strLe
      ((problems.flatMap (fun p =>
        (p.topicTags.filter (fun t => selectedTags.contains t.name)).flatMap
          (fun t => t.subtags))).dedup)

/-- Search predicate of stage 1: lowercased title contains the lowercased
term, or the decimal rendering of the id contains the lowercased term. -/
def searchPredCode (term : JStr) (p : Problem) : Bool :=
  jsIncludes (lowerStr p.Title) (lowerStr term) || jsIncludes (intToStr p.ID) (lowerStr term)

/-- Guard of stage 1, the JS truthiness test `if (appliedFilters.searchTerm)`. -/
def searchActive (f : AppliedFilters) : Bool := f.searchTerm != []

/-- Stage 1 of the pipeline: the search filter. -/
def searchStage (f : AppliedFilters) (l : List Problem) : List Problem :=
  if searchActive f then l.filter (searchPredCode f.searchTerm) else l

/-- Guard of stage 2: `appliedFilters.difficulty !== "all"`. -/
def difficultyActive (f : AppliedFilters) : Bool := f.difficulty != js "all"

/-- Stage 2: the difficulty filter; an absent difficulty defaults to Hard
(`problem.problemDetails?.difficulty || "Hard"`). -/
def difficultyStage (f : AppliedFilters) (l : List Problem) : List Problem :=
  if difficultyActive f then
    l.filter (fun p => (p.difficulty.getD (js "Hard")) == f.difficulty)
  else l

/-- Guard of stage 3: `appliedFilters.tags.size > 0`. -/
def tagActive (f : AppliedFilters) : Bool := f.tags != []

/-- Stage 3: the tag filter (OR across tags). -/
def tagStage (f : AppliedFilters) (l : List Problem) : List Problem :=
  if tagActive f then
    l.filter (fun p => p.topicTags.any (fun t => f.tags.contains t.name))
  else l

/-- Guard of stage 4: `appliedFilters.subtags.size > 0`. -/
def subtagActive (f : AppliedFilters) : Bool := f.subtags != []

/-- Stage 4: the subtag filter (OR across every subtag of every tag). -/
def subtagStage (f : AppliedFilters) (l : List Problem) : List Problem :=
  if subtagActive f then
    l.filter (fun p => p.topicTags.any (fun t => t.subtags.any (fun s => f.subtags.contains s)))
  else l

/-- Guard of stage 5: `appliedFilters.ratingMin > 0 || appliedFilters.ratingMax < 4000`. -/
def ratingActive (f : AppliedFilters) : Bool := jgt f.ratingMin 0 || jlt f.ratingMax 4000

/-- Stage 5: the rating range filter, run only when its guard holds. -/
def ratingStage (f : AppliedFilters) (l : List Problem) : List Problem :=
  if ratingActive f then
    l.filter (fun p => jgeN p.Rating f.ratingMin && jleN p.Rating f.ratingMax)
  else l

/-- Boolean order induced by the switch comparator of stage 6
(`le a b` is `cmp(a, b) <= 0`); the `localeCompare` branches for titles are
modeled by code-unit comparison. -/
def sortLe (sortBy : JStr) (a b : Problem) : Bool :=
  if sortBy = js "rating-desc" then decide (b.Rating ≤ a.Rating)
  else if sortBy = js "rating-asc" then decide (a.Rating ≤ b.Rating)
  else if sortBy = js "id-asc" then decide (a.ID ≤ b.ID)
  else if sortBy = js "id-desc" then decide (b.ID ≤ a.ID)
  else if sortBy = js "title-asc" then strLe a.Title b.Title
  else if sortBy = js "title-desc" then strLe b.Title a.Title
  else decide (a.Rating ≤ b.Rating)

/-- Did any filter stage run?  Exactly when one did, `filtered` was
reassigned to a fresh array and the in-place sort left `problems` alone. -/
def anyStageActive (f : AppliedFilters) : Bool :=
  searchActive f || difficultyActive f || tagActive f || subtagActive f || ratingActive f

/-- Stages 1-5 in source order. -/
def filteredList (problems : List Problem) (f : AppliedFilters) : List Problem :=
  ratingStage f (subtagStage f (tagStage f (difficultyStage f (searchStage f problems))))

/-- Stages 1-6: the filtered list, sorted. -/
def sortedList (problems : List Problem) (f : AppliedFilters) : List Problem :=
  jsSort (sortLe f.sortBy) (filteredList problems f)

/-- Result of the `filteredAndSortedProblems` memo together with the final
contents of the dataset array. -/
structure EvalResult where
  items : List Problem
  problemsAfter : List Problem
deriving DecidableEq

/-- Model of the `filteredAndSortedProblems` memo.  `items` is the
returned `[...filtered]` copy.  `problemsAfter` records the aliasing
effect of the in-place `filtered.sort(...)`: when no filter stage ran,
`filtered` still aliases `problems`, so the dataset array itself ends up
sorted; when some stage ran, `filtered` is a fresh array and the dataset
is untouched. -/
def filteredAndSorted (problems : List Problem) (f : AppliedFilters) : EvalResult :=
  { items := sortedList problems f
    problemsAfter := if anyStageActive f then problems else sortedList problems f }

/-- Model of the `paginatedProblems` memo:
`slice((page - 1) * 50, (page - 1) * 50 + 50)`. -/
def paginatedProblems (problems : List Problem) (f : AppliedFilters) (page : Nat) : List Problem :=
  (((filteredAndSorted problems f).items).drop ((page - 1) * 50)).take 50

/-- Model of `totalPages = Math.ceil(filteredAndSortedProblems.length / pageSize)`
with `pageSize = 50`. -/
def totalPages (problems : List Problem) (f : AppliedFilters) : Nat :=
  ((filteredAndSorted problems f).items.length + 49) / 50

/-- Model of the `applyFilters` callback: copy the pending spec into the
applied spec.  The rating fields go through the JS truthiness test
`pendingFilters.ratingMin ? parseInt(pendingFilters.ratingMin) : 0`, so
only the empty string falls back to the default bound. -/
def applyFilters (pend : PendingFilters) : AppliedFilters :=
  { searchTerm := pend.searchTerm
    difficulty := pend.difficulty
    tags := pend.selectedTags
    subtags := pend.selectedSubtags
    ratingMin := if pend.ratingMin = [] then some 0 else jsParseInt pend.ratingMin
    ratingMax := if pend.ratingMax = [] then some 4000 else jsParseInt pend.ratingMax
    sortBy := pend.sortBy }

/-- Default applied spec (initial state of the `appliedFilters` hook). -/
def defaultApplied : AppliedFilters :=
  { searchTerm := []
    difficulty := js "all"
    tags := []
    subtags := []
    ratingMin := some 0
    ratingMax := some 4000
    sortBy := js "rating-asc" }

/-- Default pending spec (initial state of the `pendingFilters` hook). -/
def defaultPending : PendingFilters :=
  { searchTerm := []
    difficulty := js "all"
    selectedTags := []
    selectedSubtags := []
    ratingMin := []
    ratingMax := []
    sortBy := js "rating-asc" }

/-- Subtags the `toggleTag` deselect branch purges for `tagName`: for each
problem, the subtag list of the first tag named `tagName`. -/
def subtagsUnder (problems : List Problem) (tagName : JStr) : List JStr :=
  problems.flatMap (fun p =>
    match p.topicTags.find? (fun t => t.name == tagName) with
    | some t => t.subtags
    | none => [])

/-- Model of the `toggleTag` callback: deselecting a selected tag also
deletes, for every problem, every subtag of the (first) tag of that name;
selecting an unselected tag only adds it. -/
def toggleTag (problems : List Problem) (tagName : JStr) (prev : PendingFilters) : PendingFilters :=
  if prev.selectedTags.contains tagName then
    { prev with
      selectedTags := setDelete prev.selectedTags tagName
      selectedSubtags :=
        problems.foldl (fun acc p =>
          match p.topicTags.find? (fun t => t.name == tagName) with
          | some t => t.subtags.foldl (fun a s => setDelete a s) acc
          | none => acc) prev.selectedSubtags }
  else
    { prev with selectedTags := setAdd prev.selectedTags tagName }

/-- Model of the `toggleSubtag` callback. -/
def toggleSubtag (subtagName : JStr) (prev : PendingFilters) : PendingFilters :=
  if prev.selectedSubtags.contains subtagName then
    { prev with selectedSubtags := setDelete prev.selectedSubtags subtagName }
  else
    { prev with selectedSubtags := setAdd prev.selectedSubtags subtagName }

/-- Model of the `removeAppliedFilter` callback (the switch over the chip
kind); an unrecognized kind changes nothing. -/
def removeAppliedFilter (type : JStr) (value : Option JStr)
    (applied : AppliedFilters) (pending : PendingFilters) :
    AppliedFilters × PendingFilters :=
  if type = js "search" then
    ({ applied with searchTerm := [] }, { pending with searchTerm := [] })
  else if type = js "difficulty" then
    ({ applied with difficulty := js "all" }, { pending with difficulty := js "all" })
  else if type = js "tag" then
    match value with
    | some v =>
      ({ applied with tags := setDelete applied.tags v },
       { pending with selectedTags := setDelete pending.selectedTags v })
    | none => (applied, pending)
  else if type = js "subtag" then
    match value with
    | some v =>
      ({ applied with subtags := setDelete applied.subtags v },
       { pending with selectedSubtags := setDelete pending.selectedSubtags v })
    | none => (applied, pending)
  else if type = js "rating" then
    ({ applied with ratingMin := some 0, ratingMax := some 4000 },
     { pending with ratingMin := [], ratingMax := [] })
  else (applied, pending)

/-- User-visible filter state of the route component: the two spec slots
and the 1-based current page. -/
structure UiState where
  applied : AppliedFilters
  pending : PendingFilters
  page : Nat
deriving DecidableEq

/-- Initial state of the component hooks. -/
def initState : UiState := { applied := defaultApplied, pending := defaultPending, page := 1 }

/-- The apply button: commit pending, reset to page 1. -/
def applyOp (s : UiState) : UiState :=
  { applied := applyFilters s.pending, pending := s.pending, page := 1 }

/-- The clear-all button: both slots to defaults, page 1. -/
def clearOp : UiState :=
  { applied := defaultApplied, pending := defaultPending, page := 1 }

/-- A single applied-filter chip removal: update both slots, page 1. -/
def removeOp (type : JStr) (value : Option JStr) (s : UiState) : UiState :=
  { applied := (removeAppliedFilter type value s.applied s.pending).1
    pending := (removeAppliedFilter type value s.applied s.pending).2
    page := 1 }

/-- The previous-page button: `setCurrentPage(prev => Math.max(1, prev - 1))`. -/
def prevOp (s : UiState) : UiState := { s with page := max 1 (s.page - 1) }

/-- The next-page button:
`setCurrentPage(prev => Math.min(totalPages, prev + 1))`. -/
def nextOp (problems : List Problem) (s : UiState) : UiState :=
  { s with page := min (totalPages problems s.applied) (s.page + 1) }

/-- One user interaction.  Every other handler of the component edits only
the pending slot, which the `edit` constructor covers; the page buttons
are rendered only when `totalPages > 1` and carry `disabled` attributes
for their boundary pages, modeled as guards. -/
inductive Step (problems : List Problem) : UiState → UiState → Prop
  | edit (s : UiState) (pend : PendingFilters) : Step problems s { s with pending := pend }
  | applyStep (s : UiState) : Step problems s (applyOp s)
  | clearStep (s : UiState) : Step problems s clearOp
  | removeStep (s : UiState) (type : JStr) (value : Option JStr) :
      Step problems s (removeOp type value s)
  | prevStep (s : UiState) (hr : 1 < totalPages problems s.applied) (hp : s.page ≠ 1) :
      Step problems s (prevOp s)
  | nextStep (s : UiState) (hr : 1 < totalPages problems s.applied)
      (hp : s.page ≠ totalPages problems s.applied) :
      Step problems s (nextOp problems s)

/-- States reachable from the initial hook state by user interactions. -/
def Reachable (problems : List Problem) (s : UiState) : Prop :=
  Relation.ReflTransGen (Step problems) initState s

/-- Problem 1 of the spec section 8 example dataset. -/
def probTwoSum : Problem :=
  { ID := 1, Title := js "Two Sum", Rating := 1200,
    difficulty := some (js "Easy"), topicTags := [⟨js "Array", []⟩] }

/-- Problem 2 of the spec section 8 example dataset (no difficulty). -/
def probAdd : Problem :=
  { ID := 2, Title := js "Add", Rating := 2200,
    difficulty := none, topicTags := [] }

/-- Problem 3 of the spec section 8 example dataset. -/
def probSumTree : Problem :=
  { ID := 3, Title := js "Sum Tree", Rating := 1800,
    difficulty := some (js "Medium"), topicTags := [⟨js "Array", [js "Prefix Sum"]⟩] }

/-- Example dataset of spec section 8: three problems. -/
def exampleProblems : List Problem := [probTwoSum, probAdd, probSumTree]

/-- Applied spec that only searches for "sum". -/
def searchSumFilter : AppliedFilters := { defaultApplied with searchTerm := js "sum" }

/-- Inserting with `insertLe` permutes consing. -/
theorem insertLe_perm {α : Type} (le : α → α → Bool) (x : α) (l : List α) :
    List.Perm (insertLe le x l) (x :: l) := by
  induction l with
  | nil => simp [insertLe]
  | cons y ys ih =>
    simp only [insertLe]
    by_cases h : le y x = true
    · rw [if_pos h]
      exact (ih.cons y).trans (List.Perm.swap x y ys)
    · rw [if_neg h]

/-- The folded insertion sort permutes the accumulator followed by the input. -/
theorem jsSort_foldl_perm {α : Type} (le : α → α → Bool) :
    ∀ (l acc : List α), List.Perm (l.foldl (fun a x => insertLe le x a) acc) (acc ++ l) := by
  intro l
  induction l with
  | nil => intro acc; simp
  | cons x xs ih =>
    intro acc
    simp only [List.foldl_cons]
    refine (ih (insertLe le x acc)).trans ?_
    refine ((insertLe_perm le x acc).append_right xs).trans ?_
    exact List.perm_middle.symm

/-- The modeled sort is a permutation of its input. -/
theorem jsSort_perm {α : Type} (le : α → α → Bool) (l : List α) :
    List.Perm (jsSort le l) l := by
  simpa using jsSort_foldl_perm le l []

/-- Membership is preserved by the modeled sort. -/
theorem mem_jsSort {α : Type} (le : α → α → Bool) (l : List α) (a : α) :
    a ∈ jsSort le l ↔ a ∈ l := (jsSort_perm le l).mem_iff

/-- Inserting into a `le`-sorted list keeps it sorted, for a total and
transitive boolean order. -/
theorem insertLe_pairwise {α : Type} (le : α → α → Bool)
    (total : ∀ a b, le a b = true ∨ le b a = true)
    (htrans : ∀ a b c, le a b = true → le b c = true → le a c = true)
    (x : α) (l : List α) (h : l.Pairwise (fun a b => le a b = true)) :
    (insertLe le x l).Pairwise (fun a b => le a b = true) := by
  induction l with
  | nil => simp [insertLe]
  | cons y ys ih =>
    rcases List.pairwise_cons.mp h with ⟨hy, hys⟩
    simp only [insertLe]
    by_cases hyx : le y x = true
    · rw [if_pos hyx]
      refine List.pairwise_cons.mpr ⟨?_, ih hys⟩
      intro b hb
      have hb2 : b ∈ x :: ys := (insertLe_perm le x ys).subset hb
      rcases List.mem_cons.mp hb2 with rfl | hbys
      · exact hyx
      · exact hy b hbys
    · rw [if_neg hyx]
      have hxy : le x y = true := (total x y).resolve_right hyx
      refine List.pairwise_cons.mpr ⟨?_, h⟩
      intro b hb
      rcases List.mem_cons.mp hb with rfl | hbys
      · exact hxy
      · exact htrans x y b hxy (hy b hbys)

/-- The folded insertion sort returns a sorted list, for a total and
transitive boolean order. -/
theorem jsSort_foldl_pairwise {α : Type} (le : α → α → Bool)
    (total : ∀ a b, le a b = true ∨ le b a = true)
    (htrans : ∀ a b c, le a b = true → le b c = true → le a c = true) :
    ∀ (l acc : List α), acc.Pairwise (fun a b => le a b = true) →
      (l.foldl (fun a x => insertLe le x a) acc).Pairwise (fun a b => le a b = true) := by
  intro l
  induction l with
  | nil => intro acc hacc; simpa using hacc
  | cons x xs ih =>
    intro acc hacc
    simp only [List.foldl_cons]
    exact ih _ (insertLe_pairwise le total htrans x acc hacc)

/-- Sortedness of the modeled sort. -/
theorem jsSort_pairwise {α : Type} (le : α → α → Bool)
    (total : ∀ a b, le a b = true ∨ le b a = true)
    (htrans : ∀ a b c, le a b = true → le b c = true → le a c = true)
    (l : List α) : (jsSort le l).Pairwise (fun a b => le a b = true) :=
  jsSort_foldl_pairwise le total htrans l [] (List.Pairwise.nil)

/-- Totality of the code-unit string order. -/
theorem strLe_total : ∀ a b : List Nat, strLe a b = true ∨ strLe b a = true := by
  intro a
  induction a with
  | nil => intro b; left; simp [strLe]
  | cons x as ih =>
    intro b
    cases b with
    | nil => right; simp [strLe]
    | cons y bs =>
      simp only [strLe]
      rcases Nat.lt_trichotomy x y with h | h | h
      · left; rw [if_pos h]
      · subst h
        rw [if_neg (Nat.lt_irrefl x), if_neg (Nat.lt_irrefl x),
          if_neg (Nat.lt_irrefl x), if_neg (Nat.lt_irrefl x)]
        exact ih bs
      · right; rw [if_pos h]

/-- Transitivity of the code-unit string order. -/
theorem strLe_trans : ∀ a b c : List Nat,
    strLe a b = true → strLe b c = true → strLe a c = true := by
  intro a
  induction a with
  | nil => intro b c _ _; simp [strLe]
  | cons x as ih =>
    intro b c hab hbc
    cases b with
    | nil => simp [strLe] at hab
    | cons y bs =>
      cases c with
      | nil => simp [strLe] at hbc
      | cons z cs =>
        simp only [strLe] at hab hbc ⊢
        split_ifs at hab hbc ⊢ <;>
          first
            | rfl
            | omega
            | exact ih bs cs hab hbc

/-- JS `Set.has` / `Array.includes` is list membership. -/
theorem contains_iff (l : List JStr) (v : JStr) : l.contains v = true ↔ v ∈ l := by
  simp [List.contains]

/-- Membership after a `Set.delete`. -/
theorem mem_setDelete (l : List JStr) (v a : JStr) :
    a ∈ setDelete l v ↔ a ∈ l ∧ a ≠ v := by
  simp [setDelete, List.mem_filter, bne_iff_ne]

/-- Membership after deleting a whole list of subtags in order. -/
theorem mem_foldl_delete (subs : List JStr) :
    ∀ (acc : List JStr) (a : JStr),
      a ∈ subs.foldl (fun x s => setDelete x s) acc ↔ a ∈ acc ∧ a ∉ subs := by
  induction subs with
  | nil => intro acc a; simp
  | cons s ss ih =>
    intro acc a
    simp only [List.foldl_cons]
    rw [ih, mem_setDelete]
    simp only [List.mem_cons]
    tauto

/-- Membership after the per-problem subtag purge loop of `toggleTag`. -/
theorem mem_purge (tagName : JStr) :
    ∀ (problems : List Problem) (acc : List JStr) (a : JStr),
      a ∈ problems.foldl (fun acc p =>
        match p.topicTags.find? (fun t => t.name == tagName) with
        | some t => t.subtags.foldl (fun x s => setDelete x s) acc
        | none => acc) acc ↔ a ∈ acc ∧ a ∉ subtagsUnder problems tagName := by
  intro problems
  induction problems with
  | nil => intro acc a; simp [subtagsUnder]
  | cons p ps ih =>
    intro acc a
    simp only [List.foldl_cons]
    rw [ih]
    cases hf : p.topicTags.find? (fun t => t.name == tagName) with
    | none =>
      simp [subtagsUnder, List.flatMap_cons, hf]
    | some t =>
      rw [mem_foldl_delete]
      simp only [subtagsUnder, List.flatMap_cons, hf, List.mem_append]
      tauto

/-- Characterization of `startsWithB`. -/
theorem startsWithB_iff : ∀ (n h : List Nat),
    startsWithB n h = true ↔ ∃ rest, h = n ++ rest := by
  intro n
  induction n with
  | nil => intro h; simp [startsWithB]
  | cons a as ih =>
    intro h
    cases h with
    | nil =>
      simp [startsWithB]
    | cons b bs =>
      simp only [startsWithB, Bool.and_eq_true, beq_iff_eq, ih]
      constructor
      · rintro ⟨rfl, rest, rfl⟩
        exact ⟨rest, rfl⟩
      · rintro ⟨rest, heq⟩
        injection heq with h1 h2
        exact ⟨h1.symm, rest, h2⟩

/-- Characterization of `strContains` as contiguous occurrence. -/
theorem strContains_iff (needle : List Nat) : ∀ (hay : List Nat),
    strContains needle hay = true ↔ ∃ pre post, hay = pre ++ needle ++ post := by
  intro hay
  induction hay with
  | nil =>
    simp only [strContains, startsWithB_iff]
    constructor
    · rintro ⟨rest, h⟩
      rcases List.append_eq_nil.mp h.symm with ⟨h1, h2⟩
      exact ⟨[], [], by simp [h1]⟩
    · rintro ⟨pre, post, h⟩
      rcases List.append_eq_nil.mp h.symm with ⟨h1, h2⟩
      rcases List.append_eq_nil.mp h1 with ⟨h3, h4⟩
      exact ⟨[], by simp [h4]⟩
  | cons c rest ih =>
    simp only [strContains, Bool.or_eq_true, startsWithB_iff, ih]
    constructor
    · rintro (⟨r, hr⟩ | ⟨pre, post, hp⟩)
      · exact ⟨[], r, by simpa using hr⟩
      · exact ⟨c :: pre, post, by simp [hp]⟩
    · rintro ⟨pre, post, hp⟩
      cases pre with
      | nil => exact Or.inl ⟨post, by simpa using hp⟩
      | cons d ds =>
        injection hp with h1 h2
        exact Or.inr ⟨ds, post, h2⟩

/-- A string occurring inside another only uses its code units. -/
theorem mem_of_strContains (needle hay : List Nat) (h : strContains needle hay = true) :
    ∀ c ∈ needle, c ∈ hay := by
  rcases (strContains_iff needle hay).mp h with ⟨pre, post, rfl⟩
  intro c hc
  simp [hc]

/-- Every code unit of a rendered natural number is a decimal digit. -/
theorem natToStrAux_digits : ∀ (fuel n c : Nat), c ∈ natToStrAux fuel n → 48 ≤ c ∧ c ≤ 57 := by
  intro fuel
  induction fuel with
  | zero => intro n c h; simp [natToStrAux] at h
  | succ f ih =>
    intro n c h
    simp only [natToStrAux] at h
    by_cases hn : n < 10
    · rw [if_pos hn] at h
      simp at h
      omega
    · rw [if_neg hn] at h
      rcases List.mem_append.mp h with h1 | h2
      · exact ih _ _ h1
      · simp at h2
        have := Nat.mod_lt n (by omega : 0 < 10)
        omega

/-- Every code unit of a rendered integer is a digit or a minus sign. -/
theorem intToStr_chars (n : Int) : ∀ c ∈ intToStr n, c = 45 ∨ (48 ≤ c ∧ c ≤ 57) := by
  intro c hc
  rw [intToStr] at hc
  split_ifs at hc
  · rcases List.mem_cons.mp hc with rfl | h
    · exact Or.inl rfl
    · exact Or.inr (natToStrAux_digits _ _ _ h)
  · exact Or.inr (natToStrAux_digits _ _ _ hc)

/-- Lowercasing leaves a string without ASCII uppercase letters unchanged. -/
theorem lowerStr_of_no_upper : ∀ (t : List Nat),
    (∀ c ∈ t, ¬(65 ≤ c ∧ c ≤ 90)) → lowerStr t = t := by
  intro t
  induction t with
  | nil => intro _; rfl
  | cons c cs ih =>
    intro h
    have h1 : lowerChar c = c := by rw [lowerChar, if_neg (h c (by simp))]
    have h2 : lowerStr cs = cs := ih (fun d hd => h d (by simp [hd]))
    show lowerChar c :: lowerStr cs = c :: cs
    rw [h1, h2]

/-- Against a decimal id string, searching for the lowercased term and for
the raw term agree: lowercasing changes the term only when it has an
uppercase letter, and then neither version can occur among digit and minus
code units. -/
theorem jsIncludes_intToStr_lower (n : Int) (t : List Nat) :
    jsIncludes (intToStr n) (lowerStr t) = jsIncludes (intToStr n) t := by
  by_cases hup : ∀ c ∈ t, ¬(65 ≤ c ∧ c ≤ 90)
  · rw [lowerStr_of_no_upper t hup]
  · push_neg at hup
    rcases hup with ⟨c, hct, hc1, hc2⟩
    have hfalse1 : jsIncludes (intToStr n) t = false := by
      rw [Bool.eq_false_iff]
      intro h
      have hmem := mem_of_strContains t (intToStr n) h c hct
      rcases intToStr_chars n c hmem with h45 | hd <;> omega
    have hfalse2 : jsIncludes (intToStr n) (lowerStr t) = false := by
      rw [Bool.eq_false_iff]
      intro h
      have hcl : c + 32 ∈ lowerStr t := by
        refine List.mem_map.mpr ⟨c, hct, ?_⟩
        rw [lowerChar, if_pos ⟨hc1, hc2⟩]
      have hmem := mem_of_strContains (lowerStr t) (intToStr n) h (c + 32) hcl
      rcases intToStr_chars n (c + 32) hmem with h45 | hd <;> omega
    rw [hfalse1, hfalse2]

/-- Dataset for the tag/subtag purge scenario: tag A carries subtags x and
y, tag B carries subtags y and z, so y is shared between the two tags. -/
def problemsAB : List Problem :=
  [ { ID := 1, Title := js "P1", Rating := 1000, difficulty := none,
      topicTags := [⟨js "A", [js "x", js "y"]⟩] },
    { ID := 2, Title := js "P2", Rating := 1100, difficulty := none,
      topicTags := [⟨js "B", [js "y", js "z"]⟩] } ]

/-- Pending state with tags A and B selected and subtags x, y, z selected. -/
def pendingAB : PendingFilters :=
  { defaultPending with
    selectedTags := [js "A", js "B"]
    selectedSubtags := [js "x", js "y", js "z"] }

/-- C1 counterexample: in the dataset with A carrying x, y and B carrying
y, z, with tags A, B and subtags x, y, z selected, deselecting A also
drops y from the subtag selection even though y belongs to the subtag
list of the still-selected tag B; the claim requires y to stay selected. -/
theorem C1_counterexample :
    js "y" ∈ pendingAB.selectedSubtags ∧
    (∃ p ∈ problemsAB, ∃ t ∈ p.topicTags, t.name ≠ js "A" ∧
      t.name ∈ pendingAB.selectedTags ∧ js "y" ∈ t.subtags) ∧
    js "y" ∉ (toggleTag problemsAB (js "A") pendingAB).selectedSubtags := by
  decide

/-- C1 (amended): deselecting a selected tag removes it from the tag
selection and removes from the subtag selection every subtag string that
appears in the subtag list of the (first) tag of that name in any problem
of the dataset, including subtags shared with other still-selected tags;
a selected subtag survives exactly when it does not occur under the
removed tag at all. -/
theorem C1_toggle_deselect_purges_all (problems : List Problem)
    (pend : PendingFilters) (tagName : JStr) (h : tagName ∈ pend.selectedTags) :
    (toggleTag problems tagName pend).selectedTags = setDelete pend.selectedTags tagName ∧
    ∀ s : JStr, s ∈ (toggleTag problems tagName pend).selectedSubtags ↔
      s ∈ pend.selectedSubtags ∧ s ∉ subtagsUnder problems tagName := by
  have hc : pend.selectedTags.contains tagName = true := (contains_iff _ _).mpr h
  rw [toggleTag, if_pos hc]
  exact ⟨rfl, fun s => mem_purge tagName problems pend.selectedSubtags s⟩

/-- C1 witness: the amended statement at the concrete scenario. -/
theorem C1_amended_witness :
    (toggleTag problemsAB (js "A") pendingAB).selectedTags =
      setDelete pendingAB.selectedTags (js "A") ∧
    (js "z" ∈ (toggleTag problemsAB (js "A") pendingAB).selectedSubtags ↔
      js "z" ∈ pendingAB.selectedSubtags ∧ js "z" ∉ subtagsUnder problemsAB (js "A")) := by
  have h := C1_toggle_deselect_purges_all problemsAB pendingAB (js "A") (by decide)
  exact ⟨h.1, h.2 (js "z")⟩

/-- Congruence for the pipeline: two applied specs that agree on every
field the stages read (with the rating bounds only needed when the rating
stage runs) evaluate identically. -/
theorem filteredAndSorted_congr (ds : List Problem) (f g : AppliedFilters)
    (hs : f.searchTerm = g.searchTerm) (hd : f.difficulty = g.difficulty)
    (ht : f.tags = g.tags) (hsub : f.subtags = g.subtags)
    (hsort : f.sortBy = g.sortBy)
    (hra : ratingActive f = ratingActive g)
    (hrb : ratingActive f = true → f.ratingMin = g.ratingMin ∧ f.ratingMax = g.ratingMax) :
    filteredAndSorted ds f = filteredAndSorted ds g := by
  have e1 : ∀ l, searchStage f l = searchStage g l := by
    intro l; simp only [searchStage, searchActive, searchPredCode, hs]
  have e2 : ∀ l, difficultyStage f l = difficultyStage g l := by
    intro l; simp only [difficultyStage, difficultyActive, hd]
  have e3 : ∀ l, tagStage f l = tagStage g l := by
    intro l; simp only [tagStage, tagActive, ht]
  have e4 : ∀ l, subtagStage f l = subtagStage g l := by
    intro l; simp only [subtagStage, subtagActive, hsub]
  have e5 : ∀ l, ratingStage f l = ratingStage g l := by
    intro l
    by_cases hb : ratingActive f = true
    · rcases hrb hb with ⟨hm, hM⟩
      simp only [ratingStage, hra, hm, hM]
    · have hb2 : ¬ ratingActive g = true := by rw [← hra]; exact hb
      simp only [ratingStage]
      rw [if_neg hb, if_neg hb2]
  have efil : filteredList ds f = filteredList ds g := by
    simp only [filteredList, e1, e2, e3, e4, e5]
  have eany : anyStageActive f = anyStageActive g := by
    simp only [anyStageActive, searchActive, difficultyActive, tagActive, subtagActive,
      hs, hd, ht, hsub, hra]
  simp only [filteredAndSorted, sortedList, hsort, efil, eany]

/-- Pending state with an unparseable rating minimum and a parseable
non-default rating maximum. -/
def pendingBadMin : PendingFilters :=
  { defaultPending with ratingMin := js "abc", ratingMax := js "500" }

/-- Single problem whose rating lies inside the requested range. -/
def lowProblem : Problem :=
  { ID := 7, Title := js "Low", Rating := 100, difficulty := none, topicTags := [] }

/-- C2 counterexample: committing a pending spec whose ratingMin is the
unparseable string abc and whose ratingMax is 500 yields an applied
ratingMin of NaN, not 0, and evaluation then filters out a problem of
rating 100 that the default range keeps: the bounds are neither sanitized
to defaults nor behaving as the default range. -/
theorem C2_counterexample :
    (applyFilters pendingBadMin).ratingMin = none ∧
    (applyFilters pendingBadMin).ratingMin ≠ some 0 ∧
    (filteredAndSorted [lowProblem] (applyFilters pendingBadMin)).items = [] ∧
    (filteredAndSorted [lowProblem] defaultApplied).items = [lowProblem] := by
  decide

/-- C2 (amended): committing sanitizes only EMPTY rating inputs to the
defaults 0 and 4000; a non-empty input is passed to parseInt unchanged, so
an unparseable one yields NaN.  A NaN minimum never satisfies the stage
guard on its side: when the maximum side of the guard is also inactive the
rating stage is skipped and evaluation coincides with the default range,
but when the maximum is set below 4000 the stage runs and the NaN
comparison rejects every problem. -/
theorem C2_sanitize_and_nan (pend : PendingFilters) (ds : List Problem) :
    (pend.ratingMin = [] → (applyFilters pend).ratingMin = some 0) ∧
    (pend.ratingMax = [] → (applyFilters pend).ratingMax = some 4000) ∧
    (pend.ratingMin ≠ [] → (applyFilters pend).ratingMin = jsParseInt pend.ratingMin) ∧
    (∀ f : AppliedFilters, f.ratingMin = none → jlt f.ratingMax 4000 = false →
      filteredAndSorted ds f =
        filteredAndSorted ds { f with ratingMin := some 0, ratingMax := some 4000 }) ∧
    (∀ f : AppliedFilters, f.ratingMin = none → jlt f.ratingMax 4000 = true →
      (filteredAndSorted ds f).items = []) := by
  refine ⟨?_, ?_, ?_, ?_, ?_⟩
  · intro h; simp [applyFilters, h]
  · intro h; simp [applyFilters, h]
  · intro h; simp [applyFilters, h]
  · intro f hmin hmax
    have hraf : ratingActive f = false := by
      simp [ratingActive, jgt, hmin, hmax]
    have hrag : ratingActive { f with ratingMin := some 0, ratingMax := some 4000 } = false := by
      simp [ratingActive, jgt, jlt]
    refine filteredAndSorted_congr ds f _ rfl rfl rfl rfl rfl ?_ ?_
    · rw [hraf, hrag]
    · intro hb; rw [hraf] at hb; exact absurd hb (by simp)
  · intro f hmin hmax
    have hra : ratingActive f = true := by
      simp [ratingActive, hmax]
    have hempty : ∀ l, ratingStage f l = [] := by
      intro l
      rw [ratingStage, if_pos hra]
      refine List.filter_eq_nil_iff.mpr ?_
      intro p hp
      simp [jgeN, hmin]
    show sortedList ds f = []
    rw [sortedList, filteredList, hempty]
    rfl

/-- C2 witness: the amended statement at the concrete bad input. -/
theorem C2_amended_witness :
    (applyFilters pendingBadMin).ratingMin = jsParseInt pendingBadMin.ratingMin ∧
    (filteredAndSorted [lowProblem] (applyFilters pendingBadMin)).items = [] := by
  have h := C2_sanitize_and_nan pendingBadMin [lowProblem]
  refine ⟨h.2.2.1 (by decide), ?_⟩
  exact h.2.2.2.2 (applyFilters pendingBadMin) (by decide) (by decide)

/-- Two problems stored out of rating order. -/
def unsortedProblems : List Problem :=
  [ { ID := 1, Title := js "P1", Rating := 2000, difficulty := none, topicTags := [] },
    { ID := 2, Title := js "P2", Rating := 1000, difficulty := none, topicTags := [] } ]

/-- C3 (code bug): with the default applied spec no filter stage runs, so
`filtered` still aliases the dataset array and the in-place
`filtered.sort(...)` reorders the dataset itself before the `[...filtered]`
copy is taken; with any filter stage active the dataset is untouched. -/
theorem C3_dataset_mutated :
    anyStageActive defaultApplied = false ∧
    (filteredAndSorted unsortedProblems defaultApplied).problemsAfter ≠ unsortedProblems ∧
    (filteredAndSorted unsortedProblems defaultApplied).problemsAfter =
      [ { ID := 2, Title := js "P2", Rating := 1000, difficulty := none, topicTags := [] },
        { ID := 1, Title := js "P1", Rating := 2000, difficulty := none, topicTags := [] } ] ∧
    (filteredAndSorted unsortedProblems
      { defaultApplied with searchTerm := js "p" }).problemsAfter = unsortedProblems := by
  decide

/-- Problem whose rating exceeds the default maximum. -/
def highProblem : Problem :=
  { ID := 9, Title := js "High", Rating := 6000, difficulty := none, topicTags := [] }

/-- Applied spec whose rating maximum 5000 differs from the default 4000. -/
def wideMaxFilter : AppliedFilters := { defaultApplied with ratingMax := some 5000 }

/-- C4 counterexample: the bounds (0, 5000) differ from the default
(0, 4000), yet the guard `min > 0 or max < 4000` is false, the stage is
skipped, and a problem of rating 6000 outside [0, 5000] is kept. -/
theorem C4_counterexample :
    (wideMaxFilter.ratingMin, wideMaxFilter.ratingMax) ≠ (some 0, some 4000) ∧
    ratingActive wideMaxFilter = false ∧
    (filteredAndSorted [highProblem] wideMaxFilter).items = [highProblem] ∧
    ¬((6000 : Int) ≤ 5000) := by
  decide

/-- C4 (amended): for integer bounds the rating stage runs exactly when
ratingMin > 0 or ratingMax < 4000; when it runs it keeps precisely the
problems with rating in the inclusive interval, and otherwise (so in
particular for any bounds with min at most 0 and max at least 4000, not
only the default pair) it is skipped. -/
theorem C4_rating_stage_guard (f : AppliedFilters) (l : List Problem) (a b : Int)
    (hmin : f.ratingMin = some a) (hmax : f.ratingMax = some b) :
    (¬(0 < a ∨ b < 4000) → ratingStage f l = l) ∧
    ((0 < a ∨ b < 4000) → ∀ p : Problem,
      p ∈ ratingStage f l ↔ p ∈ l ∧ a ≤ p.Rating ∧ p.Rating ≤ b) := by
  constructor
  · intro h
    have hra : ratingActive f = false := by
      simp only [ratingActive, jgt, jlt, hmin, hmax]
      simp only [Bool.or_eq_false_iff, decide_eq_false_iff_not]
      omega
    rw [ratingStage, if_neg (by simp [hra])]
  · intro h p
    have hra : ratingActive f = true := by
      simp only [ratingActive, jgt, jlt, hmin, hmax]
      rcases h with h | h
      · simp [h]
      · simp [h]
    rw [ratingStage, if_pos hra, List.mem_filter]
    simp [jgeN, jleN, hmin, hmax, and_assoc]

/-- C4 witness: the amended statement at concrete bounds. -/
theorem C4_amended_witness :
    ratingStage wideMaxFilter [highProblem] = [highProblem] ∧
    (highProblem ∈
        ratingStage { defaultApplied with ratingMin := some 100, ratingMax := some 5000 }
          [highProblem] ↔
      highProblem ∈ [highProblem] ∧
        (100 : Int) ≤ highProblem.Rating ∧ highProblem.Rating ≤ 5000) := by
  have h1 := C4_rating_stage_guard wideMaxFilter [highProblem] 0 5000 rfl rfl
  have h2 := C4_rating_stage_guard
    { defaultApplied with ratingMin := some 100, ratingMax := some 5000 }
    [highProblem] 100 5000 rfl rfl
  exact ⟨h1.1 (by decide), h2.2 (by decide) highProblem⟩

/-- C5: a degenerate applied range (min > max) makes the rating stage run
with an unsatisfiable predicate, so evaluation returns the empty item list
and a total count of zero, on every dataset, without any failure. -/
theorem C5_degenerate_range (ds : List Problem) (f : AppliedFilters) (a b : Int)
    (hmin : f.ratingMin = some a) (hmax : f.ratingMax = some b) (hdeg : b < a) :
    (filteredAndSorted ds f).items = [] ∧ (filteredAndSorted ds f).items.length = 0 := by
  have hra : ratingActive f = true := by
    simp only [ratingActive, jgt, jlt, hmin, hmax]
    by_cases h0 : 0 < a
    · simp [h0]
    · have : b < 4000 := by omega
      simp [this]
  have hempty : ∀ l, ratingStage f l = [] := by
    intro l
    rw [ratingStage, if_pos hra]
    refine List.filter_eq_nil_iff.mpr ?_
    intro p hp
    simp only [jgeN, jleN, hmin, hmax, Bool.and_eq_true, decide_eq_true_iff]
    omega
  have hitems : (filteredAndSorted ds f).items = [] := by
    show sortedList ds f = []
    rw [sortedList, filteredList, hempty]
    rfl
  exact ⟨hitems, by rw [hitems]; rfl⟩

/-- Applied spec with the degenerate range of the spec test case. -/
def degenerateFilter : AppliedFilters :=
  { defaultApplied with ratingMin := some 3000, ratingMax := some 1000 }

/-- C5 witness: the degenerate range 3000..1000 on the example dataset. -/
theorem C5_witness :
    (filteredAndSorted exampleProblems degenerateFilter).items = [] ∧
    (filteredAndSorted exampleProblems degenerateFilter).items.length = 0 :=
  C5_degenerate_range exampleProblems degenerateFilter 3000 1000 rfl rfl (by decide)

/-- C6: with no selected tag the facet extractor returns the empty list
(deliberately not all subtags); with at least one selected tag it returns
a sorted, duplicate-free list whose members are exactly the subtags of
tags (in any problem) whose name is selected. -/
theorem C6_availableSubtags_spec (problems : List Problem) (sel : List JStr) :
    (sel = [] → availableSubtags problems sel = []) ∧
    (sel ≠ [] →
      (availableSubtags problems sel).Pairwise (fun a b => strLe a b = true) ∧
      (availableSubtags problems sel).Nodup ∧
      ∀ s : JStr, s ∈ availableSubtags problems sel ↔
        ∃ p ∈ problems, ∃ t ∈ p.topicTags, t.name ∈ sel ∧ s ∈ t.subtags) := by
  constructor
  · intro h; subst h; rfl
  · intro hne
    have hlen : ¬(sel.length = 0) := by
      simpa [List.length_eq_zero] using hne
    rw [availableSubtags, if_neg hlen]
    refine ⟨jsSort_pairwise strLe strLe_total strLe_trans _, ?_, ?_⟩
    · exact (jsSort_perm strLe _).symm.nodup (List.nodup_dedup _)
    · intro s
      rw [mem_jsSort, List.mem_dedup]
      simp only [List.mem_flatMap, List.mem_filter, contains_iff]
      constructor
      · rintro ⟨p, hp, t, ⟨ht, hname⟩, hs⟩
        exact ⟨p, hp, t, ht, hname, hs⟩
      · rintro ⟨p, hp, t, ht, hname, hs⟩
        exact ⟨p, hp, t, ⟨ht, hname⟩, hs⟩

/-- C6 witness: the facet extractor on the example dataset. -/
theorem C6_witness :
    availableSubtags exampleProblems [] = [] ∧
    (availableSubtags exampleProblems [js "Array"]).Nodup ∧
    (js "Prefix Sum" ∈ availableSubtags exampleProblems [js "Array"] ↔
      ∃ p ∈ exampleProblems, ∃ t ∈ p.topicTags,
        t.name ∈ [js "Array"] ∧ js "Prefix Sum" ∈ t.subtags) := by
  have h0 := C6_availableSubtags_spec exampleProblems ([] : List JStr)
  have h1 := (C6_availableSubtags_spec exampleProblems [js "Array"]).2 (by decide)
  exact ⟨h0.1 rfl, h1.2.1, h1.2.2 (js "Prefix Sum")⟩

/-- C7: with a non-empty search term the search stage keeps exactly the
problems whose lowercased title contains the lowercased term or whose id,
rendered as a decimal string, contains the raw term (lowercasing the term
makes no difference against a digit string); on the spec example dataset
the search sum keeps ids 1 and 3 and rating-asc ordering gives [1, 3]. -/
theorem C7_search_semantics (ds : List Problem) (f : AppliedFilters)
    (h : f.searchTerm ≠ []) :
    (∀ p : Problem, p ∈ searchStage f ds ↔ p ∈ ds ∧
      (jsIncludes (lowerStr p.Title) (lowerStr f.searchTerm) = true ∨
       jsIncludes (intToStr p.ID) f.searchTerm = true)) ∧
    (filteredAndSorted exampleProblems searchSumFilter).items.map (fun p => p.ID) = [1, 3] := by
  constructor
  · intro p
    have hact : searchActive f = true := by
      rw [searchActive]; exact bne_iff_ne.mpr h
    rw [searchStage, if_pos hact, List.mem_filter]
    simp only [searchPredCode, Bool.or_eq_true, jsIncludes_intToStr_lower]
  · decide

/-- C7 witness: the search characterization at a concrete problem. -/
theorem C7_witness :
    (probAdd ∈ searchStage searchSumFilter exampleProblems ↔
      probAdd ∈ exampleProblems ∧
      (jsIncludes (lowerStr probAdd.Title) (lowerStr searchSumFilter.searchTerm) = true ∨
       jsIncludes (intToStr probAdd.ID) searchSumFilter.searchTerm = true)) ∧
    (filteredAndSorted exampleProblems searchSumFilter).items.map (fun p => p.ID) = [1, 3] := by
  have h := C7_search_semantics exampleProblems searchSumFilter (by decide)
  exact ⟨h.1 probAdd, h.2⟩

/-- C8: with a non-empty selected-subtags set the subtag stage keeps
exactly the problems having some tag with some subtag in the set,
independently of the selected-tags set (the stage reads only the subtag
field); with an empty set the stage keeps every problem. -/
theorem C8_subtag_stage_semantics (f : AppliedFilters) (l : List Problem) :
    (f.subtags ≠ [] → ∀ p : Problem, p ∈ subtagStage f l ↔ p ∈ l ∧
      ∃ t ∈ p.topicTags, ∃ s ∈ t.subtags, s ∈ f.subtags) ∧
    (f.subtags = [] → subtagStage f l = l) ∧
    (∀ ts : List JStr, subtagStage { f with tags := ts } l = subtagStage f l) := by
  refine ⟨?_, ?_, fun ts => rfl⟩
  · intro h p
    have hact : subtagActive f = true := by
      rw [subtagActive]; exact bne_iff_ne.mpr h
    rw [subtagStage, if_pos hact, List.mem_filter]
    simp only [List.any_eq_true, contains_iff]
  · intro h
    have hact : subtagActive f = false := by
      rw [subtagActive, h]; rfl
    rw [subtagStage, if_neg (by simp [hact])]

/-- Applied spec selecting one subtag and no tag. -/
def subtagOnlyFilter : AppliedFilters :=
  { defaultApplied with subtags := [js "Prefix Sum"] }

/-- C8 witness: the subtag stage at the example dataset. -/
theorem C8_witness :
    (probSumTree ∈ subtagStage subtagOnlyFilter exampleProblems ↔
      probSumTree ∈ exampleProblems ∧
      ∃ t ∈ probSumTree.topicTags, ∃ s ∈ t.subtags, s ∈ subtagOnlyFilter.subtags) ∧
    subtagStage defaultApplied exampleProblems = exampleProblems := by
  have h1 := C8_subtag_stage_semantics subtagOnlyFilter exampleProblems
  have h2 := C8_subtag_stage_semantics defaultApplied exampleProblems
  exact ⟨h1.1 (by decide) probSumTree, h2.2.1 rfl⟩

/-- Concatenating the first k pages of a list yields its first k * 50
elements. -/
theorem pages_take (L : List Problem) : ∀ k : Nat,
    (List.range k).flatMap (fun i => (L.drop (i * 50)).take 50) = L.take (k * 50) := by
  intro k
  induction k with
  | zero => simp
  | succ n ih =>
    rw [List.range_succ, List.flatMap_append, ih]
    simp only [List.flatMap_cons, List.flatMap_nil, List.append_nil]
    rw [Nat.succ_mul, List.take_add]

/-- C9: every page holds at most 50 items, pages before the last hold
exactly 50, the pages 1 .. totalPages concatenate back to the whole
filtered-and-sorted sequence (so the page lengths sum to the total count),
and totalPages is the ceiling of totalCount / 50. -/
theorem C9_pagination (ds : List Problem) (f : AppliedFilters) :
    (∀ page : Nat, (paginatedProblems ds f page).length ≤ 50) ∧
    ((List.range (totalPages ds f)).flatMap (fun i => paginatedProblems ds f (i + 1)) =
      (filteredAndSorted ds f).items) ∧
    (∀ page : Nat, 1 ≤ page → page < totalPages ds f →
      (paginatedProblems ds f page).length = 50) ∧
    ((filteredAndSorted ds f).items.length ≤ 50 * totalPages ds f ∧
      50 * totalPages ds f < (filteredAndSorted ds f).items.length + 50) := by
  have hTP : totalPages ds f = ((filteredAndSorted ds f).items.length + 49) / 50 := rfl
  refine ⟨?_, ?_, ?_, ?_⟩
  · intro page
    rw [paginatedProblems, List.length_take]
    exact min_le_left _ _
  · have hrw : ∀ i : Nat, paginatedProblems ds f (i + 1) =
        (((filteredAndSorted ds f).items.drop (i * 50)).take 50) := by
      intro i
      rw [paginatedProblems]
      simp
    simp only [hrw]
    rw [pages_take]
    apply List.take_of_length_le
    rw [hTP]
    omega
  · intro page h1 h2
    rw [paginatedProblems, List.length_take, List.length_drop]
    rw [hTP] at h2
    exact min_eq_left (by omega)
  · rw [hTP]
    constructor <;> omega

/-- C9 witness: the pagination facts at a concrete dataset and spec. -/
theorem C9_witness :
    (paginatedProblems exampleProblems defaultApplied 1).length ≤ 50 ∧
    ((List.range (totalPages exampleProblems defaultApplied)).flatMap
      (fun i => paginatedProblems exampleProblems defaultApplied (i + 1)) =
      (filteredAndSorted exampleProblems defaultApplied).items) := by
  have h := C9_pagination exampleProblems defaultApplied
  exact ⟨h.1 1, h.2.1⟩

/-- C10: in every state reachable by pending edits, apply, clear,
single-filter removal, and the guarded previous/next page buttons, the
current page lies in [1, totalPages] of the applied spec, or is 1 when
there are no results (totalPages = 0); and apply always resets to page 1. -/
theorem C10_page_invariant (problems : List Problem) (s : UiState)
    (h : Reachable problems s) :
    ((1 ≤ s.page ∧ s.page ≤ totalPages problems s.applied) ∨
      (s.page = 1 ∧ totalPages problems s.applied = 0)) ∧
    (∀ s0 : UiState, (applyOp s0).page = 1) := by
  refine ⟨?_, fun s0 => rfl⟩
  have pageOne : ∀ ap : AppliedFilters,
      (1 ≤ 1 ∧ 1 ≤ totalPages problems ap) ∨ (1 = 1 ∧ totalPages problems ap = 0) := by
    intro ap
    rcases Nat.eq_zero_or_pos (totalPages problems ap) with h0 | h0
    · exact Or.inr ⟨rfl, h0⟩
    · exact Or.inl ⟨le_refl 1, h0⟩
  have h2 : Relation.ReflTransGen (Step problems) initState s := h
  clear h
  induction h2 with
  | refl => exact pageOne _
  | tail hsteps hstep ih =>
    cases hstep with
    | edit pend => exact ih
    | applyStep => exact pageOne _
    | clearStep => exact pageOne _
    | removeStep type value => exact pageOne _
    | prevStep hr hp =>
      rename_i s1
      left
      show 1 ≤ max 1 (s1.page - 1) ∧ max 1 (s1.page - 1) ≤ totalPages problems s1.applied
      refine ⟨le_max_left 1 _, ?_⟩
      rcases ih with ⟨ih1, ih2⟩ | ⟨ih1, ih2⟩
      · exact max_le (by omega) (by omega)
      · exact absurd hr (by omega)
    | nextStep hr hp =>
      left
      exact ⟨le_min (by omega) (by omega), min_le_left _ _⟩

/-- C10 witness: the invariant at the (reachable) initial state. -/
theorem C10_witness :
    ((1 ≤ initState.page ∧ initState.page ≤ totalPages exampleProblems initState.applied) ∨
      (initState.page = 1 ∧ totalPages exampleProblems initState.applied = 0)) ∧
    (∀ s0 : UiState, (applyOp s0).page = 1) :=
  C10_page_invariant exampleProblems initState Relation.ReflTransGen.refl
